import Mathlib

/-!
# Verification of the vault key-management and rotation core

Shallow embedding of `src/backend/crypto_manager.py`, `src/backend/db_manager.py`
and the API handlers of `src/backend/app.py` (secure-password-local-manager-vault).

Conventions:
* Byte strings are `List Nat` (`Bytes`).  Python `str` payloads pass through
  `.encode()` / `.decode()` at the crypto boundary; since UTF-8 encoding is a
  bijection onto its range, record plaintexts are represented directly by
  their byte strings.
* Randomness (`os.urandom` salts and nonces) is passed to each operation as an
  explicit argument, as usual for a pure embedding.
* Each API handler becomes a function `ServerState → ServerState × Except ApiError α`
  (or just `Except ApiError α` for read-only handlers).  A Python `raise` before
  any mutation returns the input state unchanged, mirroring the source order of
  effects.
-/

abbrev Bytes := List Nat

/-! ## Symbolic model of the external cryptographic primitives

The AES-GCM AEAD and the Argon2 password hash / KDF come from third-party
libraries (`cryptography`, `argon2-cffi`), not from this repository.

Modelled from the spec: `deriveKey(password, salt)` is a deterministic KDF
where the same `(password, salt)` always yields the same key and different
`(password, salt)` pairs yield independent (hence distinct) keys — `derive_key`
below is the injective pairing of password and salt.
-/

structure Key where
  password : String
  salt : Bytes
deriving DecidableEq, Repr

/-- Embedding of `CryptoManager.derive_key` (Argon2id, external):
deterministic and injective in the `(password, salt)` pair. -/
def derive_key (password : String) (salt : Bytes) : Key :=
  ⟨password, salt⟩

/-- Modelled from the spec: the Argon2 verifier hash (`self.ph.hash`,
external library) is a memory-hard hash used solely to confirm password
correctness; verification succeeds exactly for the hashed password. -/
structure VHash where
  ofPassword : String
deriving DecidableEq, Repr

/-- Embedding of `ph.hash(password)` of the external `argon2.PasswordHasher`. -/
def ph_hash (password : String) : VHash :=
  ⟨password⟩

/-- Embedding of `ph.verify(stored_hash, password)`: `true` iff the password matches. -/
def ph_verify (stored_hash : VHash) (password : String) : Bool :=
  decide (stored_hash.ofPassword = password)

/-- Modelled from the spec: an AES-GCM ciphertext-with-tag (external
`cryptography` library).  The authentication tag binds key, nonce and
ciphertext body; decryption fails closed whenever the tag does not verify,
covering both tampering and use of the wrong key (§4.2 of the spec). -/
structure AeadCt where
  body : Bytes
  tagKey : Key
  tagNonce : Bytes
  tagBody : Bytes
deriving DecidableEq, Repr

/-- Embedding of `CryptoManager.encrypt_bytes` under a given master key, with the fresh
96-bit nonce (`os.urandom(12)`) passed explicitly.  Returns the
`{"nonce": …, "ciphertext": …}` pair of the source. -/
def encrypt_bytes (key : Key) (fresh_nonce : Bytes) (plaintext : Bytes) :
    Bytes × AeadCt :=
  (fresh_nonce, ⟨plaintext, key, fresh_nonce, plaintext⟩)

/-- Embedding of `CryptoManager.decrypt_bytes` (the `aesgcm.decrypt` call): returns the
body iff the tag verifies for this key, nonce and body; otherwise the
library raises `InvalidTag`, modelled as `none`. -/
def decrypt_bytes (key : Key) (nonce : Bytes) (ct : AeadCt) : Option Bytes :=
  if ct.tagKey = key ∧ ct.tagNonce = nonce ∧ ct.tagBody = ct.body then
    some ct.body
  else
    none

/-- Flip bit `b` of byte `i` of a byte string (for the tamper-detection
property of the spec). -/
def flip_bit (bs : Bytes) (i b : Nat) : Bytes :=
  bs.set i (bs.getD i 0 ^^^ 2 ^ b)

/-! ## State: `CryptoManager` and the SQLite store of `db_manager.py` -/

/-- The stateful part of `CryptoManager`: `self.master_key` (`None` when
locked). -/
structure CryptoManager where
  master_key : Option Key
deriving DecidableEq, Repr

/-- Embedding of `CryptoManager.is_unlocked`. -/
def CryptoManager.is_unlocked (c : CryptoManager) : Bool :=
  c.master_key.isSome

/-- Embedding of `CryptoManager.unlock(password, stored_salt)` with a salt provided:
derives the key and stores it (derivation is total in the model, so the
source's `return True` branch is taken). -/
def CryptoManager.unlock (_c : CryptoManager) (password : String)
    (stored_salt : Bytes) : CryptoManager :=
  { master_key := some (derive_key password stored_salt) }

/-- Embedding of `CryptoManager.lock`: clears the key. -/
def CryptoManager.lock (_c : CryptoManager) : CryptoManager :=
  { master_key := none }

/-- A row of the `passwords` table. -/
structure PasswordRow where
  id : Nat
  service : String
  username : String
  encrypted_data : AeadCt
  nonce : Bytes
deriving DecidableEq, Repr

/-- A row of the `attachments` table. -/
structure AttachmentRow where
  id : Nat
  password_id : Nat
  filename : String
  encrypted_data : AeadCt
  nonce : Bytes
deriving DecidableEq, Repr

/-- The persisted store (`vault.db`): the `config` table (salt and
verifier hash, set together by `set_master_config`), the `passwords` and
`attachments` tables in insertion order, and the AUTOINCREMENT counters. -/
structure Store where
  config : Option (Bytes × VHash)
  passwords : List PasswordRow
  attachments : List AttachmentRow
  next_password_id : Nat
  next_attachment_id : Nat
deriving DecidableEq, Repr

/-- The database state: the live store plus the snapshot files written by
`create_snapshot` (most recent first). -/
structure DBState where
  store : Store
  snapshots : List Store
deriving DecidableEq, Repr

/-- Embedding of `db_manager.create_snapshot`: copies the current database file into the
snapshot directory. -/
def create_snapshot (db : DBState) : DBState :=
  { db with snapshots := db.store :: db.snapshots }

/-- Embedding of `db_manager.set_master_config`: `INSERT OR REPLACE` of the salt and the
verifier hash. -/
def set_master_config (salt : Bytes) (password_hash : VHash) (db : DBState) :
    DBState :=
  { db with store := { db.store with config := some (salt, password_hash) } }

/-- Embedding of `db_manager.store_password`: snapshot, then insert a new row with the
next AUTOINCREMENT id. -/
def store_password (service username : String) (encrypted_data : AeadCt)
    (nonce : Bytes) (db : DBState) : DBState :=
  let db := create_snapshot db
  { db with store :=
    { db.store with
      passwords := db.store.passwords ++
        [⟨db.store.next_password_id, service, username, encrypted_data, nonce⟩],
      next_password_id := db.store.next_password_id + 1 } }

/-- Embedding of `db_manager.add_attachment`: snapshot, then insert a new attachment row. -/
def add_attachment (password_id : Nat) (filename : String)
    (encrypted_data : AeadCt) (nonce : Bytes) (db : DBState) : DBState :=
  let db := create_snapshot db
  { db with store :=
    { db.store with
      attachments := db.store.attachments ++
        [⟨db.store.next_attachment_id, password_id, filename, encrypted_data, nonce⟩],
      next_attachment_id := db.store.next_attachment_id + 1 } }

/-- Embedding of `db_manager.get_attachment`: `SELECT * FROM attachments WHERE id=?`. -/
def get_attachment (attachment_id : Nat) (db : DBState) : Option AttachmentRow :=
  db.store.attachments.find? (fun a => a.id == attachment_id)

/-- One entry of the `updated_entries` argument of
`batch_update_passwords_and_config`: `{id, encrypted_data, nonce}`. -/
structure UpdatedEntry where
  id : Nat
  encrypted_data : AeadCt
  nonce : Bytes
deriving DecidableEq, Repr

/-- One `UPDATE passwords SET encrypted_data=?, nonce=? WHERE id=?`
statement applied to one row. -/
def apply_update (e : UpdatedEntry) (r : PasswordRow) : PasswordRow :=
  if r.id = e.id then
    { r with encrypted_data := e.encrypted_data, nonce := e.nonce }
  else
    r

/-- Embedding of `db_manager.batch_update_passwords_and_config`: snapshot, then in a
single transaction run the `executemany` of row updates (each statement
updates every row matching its id, in order) and replace salt and
verifier hash in `config`. -/
def batch_update_passwords_and_config (updated_entries : List UpdatedEntry)
    (new_salt : Bytes) (new_pw_hash : VHash) (db : DBState) : DBState :=
  let db := create_snapshot db
  let passwords :=
    updated_entries.foldl (fun rows e => rows.map (apply_update e))
      db.store.passwords
  { db with store :=
    { db.store with
      passwords := passwords
      config := some (new_salt, new_pw_hash) } }

/-! ## The API layer of `app.py` -/

/-- Whole-process state: the global `CryptoManager` instance plus the
database. -/
structure ServerState where
  crypto : CryptoManager
  db : DBState
deriving DecidableEq, Repr

/-- The error outcomes (`HTTPException`s) of the handlers, following the
spec's taxonomy. -/
inductive ApiError where
  | vaultLocked
  | alreadyInitialized
  | notInitialized
  | invalidPassword
  | rotationAborted (id : Nat)
  | attachmentNotFound
  | decryptionFailed
deriving DecidableEq, Repr

/-- The `PasswordResponse` model returned by the password endpoints. -/
structure PasswordResponse where
  id : Nat
  service : String
  username : String
  password : Bytes
deriving DecidableEq, Repr

/-- Embedding of `initialize_vault` (`POST /api/init`): reject if a salt already exists,
otherwise store the new salt and verifier hash and auto-unlock.  The fresh
salt of `crypto.generate_salt()` is the explicit `fresh_salt` argument. -/
def initialize_vault (password : String) (fresh_salt : Bytes)
    (st : ServerState) : ServerState × Except ApiError Unit :=
  match st.db.store.config with
  | some _ => (st, .error .alreadyInitialized)
  | none =>
    let pw_hash := ph_hash password
    let db := set_master_config fresh_salt pw_hash st.db
    let crypto := st.crypto.unlock password fresh_salt
    ({ crypto := crypto, db := db }, .ok ())

/-- Embedding of `unlock_vault` (`POST /api/unlock`): verify the password against the
stored verifier hash first; only on success derive the key. -/
def unlock_vault (password : String) (st : ServerState) :
    ServerState × Except ApiError Unit :=
  match st.db.store.config with
  | none => (st, .error .notInitialized)
  | some (salt, stored_hash) =>
    if ph_verify stored_hash password then
      ({ st with crypto := st.crypto.unlock password salt }, .ok ())
    else
      (st, .error .invalidPassword)

/-- Embedding of `lock_vault` (`POST /api/lock`). -/
def lock_vault (st : ServerState) : ServerState :=
  { st with crypto := st.crypto.lock }

/-- The loop body of `list_passwords`: decrypt each row, appending
successes to the result and recording (via the printed log line) the id of
each row whose decryption raised. -/
def list_loop (key : Key) : List PasswordRow → List PasswordResponse × List Nat
  | [] => ([], [])
  | r :: rs =>
    let rest := list_loop key rs
    match decrypt_bytes key r.nonce r.encrypted_data with
    | some pt => (⟨r.id, r.service, r.username, pt⟩ :: rest.1, rest.2)
    | none => (rest.1, r.id :: rest.2)

/-- Embedding of `list_passwords` (`GET /api/passwords`): the `get_crypto` dependency
rejects a locked vault before the table is read; otherwise each row is
decrypted, rows that fail are skipped and their ids logged.  The second
component of the result is the list of logged skipped ids. -/
def list_passwords (st : ServerState) :
    Except ApiError (List PasswordResponse × List Nat) :=
  match st.crypto.master_key with
  | none => .error .vaultLocked
  | some key => .ok (list_loop key st.db.store.passwords)

/-- Embedding of `add_password` (`POST /api/passwords`): encrypt, store, and respond
with `id := 0` — the source's `"id": 0, # Placeholder` literal. -/
def add_password (service username : String) (password : Bytes)
    (fresh_nonce : Bytes) (st : ServerState) :
    ServerState × Except ApiError PasswordResponse :=
  match st.crypto.master_key with
  | none => (st, .error .vaultLocked)
  | some key =>
    let enc := encrypt_bytes key fresh_nonce password
    let db := store_password service username enc.2 enc.1 st.db
    ({ st with db := db }, .ok ⟨0, service, username, password⟩)

/-- Step 3 of the rotation: decrypt every row under the live key, aborting
with the offending id at the first failure (the source loop raises at the
first undecryptable row). -/
def decrypt_all (key : Key) : List PasswordRow → Except Nat (List (Nat × Bytes))
  | [] => .ok []
  | r :: rs =>
    match decrypt_bytes key r.nonce r.encrypted_data with
    | none => .error r.id
    | some pt =>
      match decrypt_all key rs with
      | .error i => .error i
      | .ok entries => .ok ((r.id, pt) :: entries)

/-- Step 6 of the rotation: re-encrypt every decrypted plaintext with the
new key, consuming one fresh nonce per entry (`nonces n` is the n-th
`os.urandom(12)` drawn by the loop). -/
def re_encrypt (key : Key) (nonces : Nat → Bytes) (n : Nat) :
    List (Nat × Bytes) → List UpdatedEntry
  | [] => []
  | (id, pt) :: rest =>
    let enc := encrypt_bytes key (nonces n) pt
    ⟨id, enc.2, enc.1⟩ :: re_encrypt key nonces (n + 1) rest

/-- Embedding of `change_master_password` (`POST /api/change-password`): guard on the
unlocked state (`get_crypto`), re-verify the current password against the
stored hash (a missing hash makes `ph.verify` raise, caught as the same
401), decrypt everything under the live key aborting on any failure,
derive the new key in a temporary `CryptoManager`, re-encrypt, batch-update
rows and config transactionally, then swap the global key. -/
def change_master_password (current_password new_password : String)
    (new_salt : Bytes) (nonces : Nat → Bytes) (st : ServerState) :
    ServerState × Except ApiError Unit :=
  match st.crypto.master_key with
  | none => (st, .error .vaultLocked)
  | some key =>
    match st.db.store.config with
    | none => (st, .error .invalidPassword)
    | some (_, stored_hash) =>
      if ph_verify stored_hash current_password then
        match decrypt_all key st.db.store.passwords with
        | .error i => (st, .error (.rotationAborted i))
        | .ok decrypted_entries =>
          let new_pw_hash := ph_hash new_password
          let temp_key := derive_key new_password new_salt
          let re_encrypted_entries := re_encrypt temp_key nonces 0 decrypted_entries
          let db := batch_update_passwords_and_config re_encrypted_entries
            new_salt new_pw_hash st.db
          ({ crypto := st.crypto.unlock new_password new_salt, db := db }, .ok ())
      else
        (st, .error .invalidPassword)

/-- Embedding of `upload_attachment` (`POST /api/passwords/{id}/attachments`): guard,
encrypt the content, insert the attachment row. -/
def upload_attachment (entry_id : Nat) (filename : String) (content : Bytes)
    (fresh_nonce : Bytes) (st : ServerState) :
    ServerState × Except ApiError Unit :=
  match st.crypto.master_key with
  | none => (st, .error .vaultLocked)
  | some key =>
    let enc := encrypt_bytes key fresh_nonce content
    ({ st with db := add_attachment entry_id filename enc.2 enc.1 st.db }, .ok ())

/-- Embedding of `download_attachment` (`GET /api/attachments/{id}`): guard, look the
row up, decrypt under the live key; a tag failure surfaces as the 500
`Decryption failed` response. -/
def download_attachment (attachment_id : Nat) (st : ServerState) :
    Except ApiError Bytes :=
  match st.crypto.master_key with
  | none => .error .vaultLocked
  | some key =>
    match get_attachment attachment_id st.db with
    | none => .error .attachmentNotFound
    | some row =>
      match decrypt_bytes key row.nonce row.encrypted_data with
      | some pt => .ok pt
      | none => .error .decryptionFailed

/-! ## Auxiliary instances and concrete example states -/

instance {ε α : Type} [DecidableEq ε] [DecidableEq α] : DecidableEq (Except ε α) := fun x y =>
  match x, y with
  | .error e, .error f => decidable_of_iff (e = f) (by simp)
  | .error _, .ok _ => isFalse (by simp)
  | .ok _, .error _ => isFalse (by simp)
  | .ok a, .ok b => decidable_of_iff (a = b) (by simp)

/-- The master key of the concrete example vault (password "a", salt `[0]`). -/
def key0 : Key := derive_key "a" [0]

/-- A concrete initialized, unlocked vault holding one password row and one
attachment row, both encrypted under the live key `key0`. -/
def vault0 : ServerState :=
  { crypto := { master_key := some key0 },
    db :=
      { store :=
          { config := some ([0], ph_hash "a"),
            passwords := [⟨1, "email", "u", (encrypt_bytes key0 [1] [104]).2, [1]⟩],
            attachments := [⟨1, 1, "f", (encrypt_bytes key0 [2] [9]).2, [2]⟩],
            next_password_id := 2,
            next_attachment_id := 2 },
        snapshots := [] } }

/-- A concrete initialized, unlocked vault whose single password row is
corrupted out of band (its stored tag does not verify under any key). -/
def vaultBad : ServerState :=
  { crypto := { master_key := some key0 },
    db :=
      { store :=
          { config := some ([0], ph_hash "a"),
            passwords := [⟨1, "s", "u", ⟨[1], key0, [9], [2]⟩, [1]⟩],
            attachments := [],
            next_password_id := 2,
            next_attachment_id := 1 },
        snapshots := [] } }

/-- A concrete uninitialized, locked vault. -/
def vaultEmpty : ServerState :=
  { crypto := { master_key := none },
    db :=
      { store :=
          { config := none,
            passwords := [],
            attachments := [],
            next_password_id := 1,
            next_attachment_id := 1 },
        snapshots := [] } }

/-! ## Helper lemmas -/

/-- Flipping a bit inside the bounds of a byte string changes it. -/
lemma flip_bit_ne (bs : Bytes) (i b : Nat) (h : i < bs.length) :
    flip_bit bs i b ≠ bs := by
  intro heq
  have hlen : i < (flip_bit bs i b).length := by
    simpa [flip_bit] using h
  have hget : (flip_bit bs i b)[i] = bs[i] := by
    simp [heq]
  simp only [flip_bit, List.getElem_set_self, List.getD_eq_getElem bs 0 h] at hget
  have h2 : (bs[i]) ^^^ ((bs[i]) ^^^ 2 ^ b) = (bs[i]) ^^^ (bs[i]) := by
    rw [hget]
  rw [← Nat.xor_assoc, Nat.xor_self, Nat.zero_xor] at h2
  exact Nat.pos_iff_ne_zero.mp (Nat.pos_pow_of_pos b (by norm_num)) h2

/-- The listing loop returns exactly the successfully decrypted rows, and
logs exactly the ids of the rows whose decryption failed. -/
lemma list_loop_eq (key : Key) (rows : List PasswordRow) :
    list_loop key rows =
      (rows.filterMap (fun r =>
        (decrypt_bytes key r.nonce r.encrypted_data).map
          (fun pt => ⟨r.id, r.service, r.username, pt⟩)),
       (rows.filter (fun r =>
          (decrypt_bytes key r.nonce r.encrypted_data).isNone)).map (fun r => r.id)) := by
  induction rows with
  | nil => simp [list_loop]
  | cons r rs ih =>
    cases hd : decrypt_bytes key r.nonce r.encrypted_data with
    | none => simp [list_loop, hd, ih]
    | some pt => simp [list_loop, hd, ih]

/-- If some stored row fails to decrypt, the rotation decryption pass
aborts with an error. -/
lemma decrypt_all_error_of_failure (key : Key) (rows : List PasswordRow)
    (hfail : ∃ r ∈ rows, decrypt_bytes key r.nonce r.encrypted_data = none) :
    ∃ i, decrypt_all key rows = .error i := by
  induction rows with
  | nil => simp at hfail
  | cons r rs ih =>
    cases hd : decrypt_bytes key r.nonce r.encrypted_data with
    | none => exact ⟨r.id, by simp [decrypt_all, hd]⟩
    | some pt =>
      rcases hfail with ⟨r', hr', hfail'⟩
      rcases List.mem_cons.mp hr' with rfl | hmem
      · rw [hd] at hfail'; cases hfail'
      · rcases ih ⟨r', hmem, hfail'⟩ with ⟨i, hi⟩
        exact ⟨i, by simp [decrypt_all, hd, hi]⟩

/-- Inversion of a successful decryption pass over a nonempty table. -/
lemma decrypt_all_cons_ok (key : Key) (r : PasswordRow) (rs : List PasswordRow)
    (ents : List (Nat × Bytes)) (h : decrypt_all key (r :: rs) = .ok ents) :
    ∃ pt es, decrypt_bytes key r.nonce r.encrypted_data = some pt ∧
      decrypt_all key rs = .ok es ∧ ents = (r.id, pt) :: es := by
  cases hd : decrypt_bytes key r.nonce r.encrypted_data with
  | none => simp [decrypt_all, hd] at h
  | some pt =>
    cases hrec : decrypt_all key rs with
    | error i => simp [decrypt_all, hd, hrec] at h
    | ok es =>
      simp only [decrypt_all, hd, hrec, Except.ok.injEq] at h
      exact ⟨pt, es, rfl, rfl, h.symm⟩

/-- A successful decryption pass preserves the row ids, in order. -/
lemma decrypt_all_ok_map_fst (key : Key) (rows : List PasswordRow)
    (ents : List (Nat × Bytes)) (h : decrypt_all key rows = .ok ents) :
    ents.map (fun p => p.1) = rows.map (fun r => r.id) := by
  induction rows generalizing ents with
  | nil => simp [decrypt_all] at h; simp [h]
  | cons r rs ih =>
    obtain ⟨pt, es, _, hrec, rfl⟩ := decrypt_all_cons_ok key r rs ents h
    simp [ih es hrec]

/-- A successful decryption pass yields one entry per row. -/
lemma decrypt_all_ok_length (key : Key) (rows : List PasswordRow)
    (ents : List (Nat × Bytes)) (h : decrypt_all key rows = .ok ents) :
    ents.length = rows.length := by
  have h1 := congrArg List.length (decrypt_all_ok_map_fst key rows ents h)
  simpa using h1

/-- Entry `i` of a successful decryption pass carries the id and the
decrypted plaintext of row `i`. -/
lemma decrypt_all_ok_get (key : Key) (rows : List PasswordRow)
    (ents : List (Nat × Bytes)) (h : decrypt_all key rows = .ok ents) :
    ∀ i (hi : i < rows.length) (hi' : i < ents.length),
      (ents[i]).1 = (rows[i]).id ∧
      decrypt_bytes key (rows[i]).nonce (rows[i]).encrypted_data =
        some ((ents[i]).2) := by
  induction rows generalizing ents with
  | nil => intro i hi; exact absurd hi (by simp)
  | cons r rs ih =>
    obtain ⟨pt, es, hd, hrec, rfl⟩ := decrypt_all_cons_ok key r rs ents h
    intro i hi hi'
    match i with
    | 0 => exact ⟨rfl, by simpa using hd⟩
    | j + 1 =>
      have hj : j < rs.length := by simpa using hi
      have hj' : j < es.length := by simpa using hi'
      simpa using ih es hrec j hj hj'

/-- Re-encryption preserves the number of entries. -/
lemma re_encrypt_length (key : Key) (nonces : Nat → Bytes) (n : Nat)
    (ents : List (Nat × Bytes)) :
    (re_encrypt key nonces n ents).length = ents.length := by
  induction ents generalizing n with
  | nil => simp [re_encrypt]
  | cons p ps ih => simp [re_encrypt, ih]

/-- Re-encryption preserves the entry ids, in order. -/
lemma re_encrypt_map_id (key : Key) (nonces : Nat → Bytes) (n : Nat)
    (ents : List (Nat × Bytes)) :
    (re_encrypt key nonces n ents).map (fun e => e.id) = ents.map (fun p => p.1) := by
  induction ents generalizing n with
  | nil => simp [re_encrypt]
  | cons p ps ih => simp [re_encrypt, ih]

/-- Entry `i` of the re-encryption output is entry `i` of the input,
freshly encrypted under the new key with the `(n + i)`-th fresh nonce. -/
lemma re_encrypt_get (key : Key) (nonces : Nat → Bytes) (n : Nat)
    (ents : List (Nat × Bytes)) :
    ∀ i (hi : i < ents.length) (hi' : i < (re_encrypt key nonces n ents).length),
      (re_encrypt key nonces n ents)[i] =
        ⟨(ents[i]).1, (encrypt_bytes key (nonces (n + i)) ((ents[i]).2)).2,
          nonces (n + i)⟩ := by
  induction ents generalizing n with
  | nil => intro i hi; exact absurd hi (by simp)
  | cons p ps ih =>
    intro i hi hi'
    match i with
    | 0 => simp [re_encrypt, encrypt_bytes]
    | j + 1 =>
      have hj : j < ps.length := by simpa using hi
      have hj' : j < (re_encrypt key nonces (n + 1) ps).length := by
        rw [re_encrypt_length]; exact hj
      have heq : n + (j + 1) = n + 1 + j := by omega
      simp only [re_encrypt, List.getElem_cons_succ, heq]
      exact ih (n + 1) j hj hj'

/-- When the update entries have pairwise distinct ids (as rotation entries
do, coming from a primary-key table), the sequential `executemany` of
per-id `UPDATE` statements acts as a pointwise lookup-and-replace. -/
lemma foldl_apply_update_eq_map (entries : List UpdatedEntry)
    (rows : List PasswordRow)
    (hno : (entries.map (fun e => e.id)).Nodup) :
    entries.foldl (fun acc e => acc.map (apply_update e)) rows =
      rows.map (fun r =>
        match entries.find? (fun e => r.id == e.id) with
        | some e => { r with encrypted_data := e.encrypted_data, nonce := e.nonce }
        | none => r) := by
  induction entries generalizing rows with
  | nil => simp
  | cons e es ih =>
    simp only [List.map_cons, List.nodup_cons] at hno
    obtain ⟨hnotin, hno'⟩ := hno
    rw [List.foldl_cons, ih (rows.map (apply_update e)) hno', List.map_map]
    apply List.map_congr_left
    intro r _
    by_cases hr : r.id = e.id
    · have hfind : es.find? (fun e' => e.id == e'.id) = none := by
        apply List.find?_eq_none.mpr
        intro x hx
        simp only [beq_iff_eq]
        intro hcontra
        exact hnotin (hcontra ▸ List.mem_map_of_mem (fun e' => e'.id) hx)
      simp [apply_update, hr, hfind, List.find?_cons]
    · simp [apply_update, hr, List.find?_cons]

/-- With update entries listing exactly the table's (pairwise distinct) row
ids in order, the lookup for row `i` finds entry `i`. -/
lemma find_entry_at (entries : List UpdatedEntry) (rows : List PasswordRow)
    (hmap : entries.map (fun e => e.id) = rows.map (fun r => r.id))
    (hno : (rows.map (fun r => r.id)).Nodup) :
    ∀ i (hi : i < rows.length) (hi' : i < entries.length),
      entries.find? (fun e => (rows[i]).id == e.id) = some (entries[i]) := by
  induction rows generalizing entries with
  | nil => intro i hi; exact absurd hi (by simp)
  | cons r rs ih =>
    cases entries with
    | nil => simp at hmap
    | cons e es =>
      simp only [List.map_cons, List.cons.injEq] at hmap
      obtain ⟨hid, hmap'⟩ := hmap
      simp only [List.map_cons, List.nodup_cons] at hno
      obtain ⟨hnotin, hno'⟩ := hno
      intro i hi hi'
      match i with
      | 0 =>
        simp [List.find?_cons, hid]
      | j + 1 =>
        have hj : j < rs.length := by simpa using hi
        have hj' : j < es.length := by simpa using hi'
        have hne : ¬ ((rs[j]).id = e.id) := by
          rw [hid]
          intro hcontra
          exact hnotin (hcontra ▸ List.mem_map_of_mem (fun r' => r'.id)
            (List.getElem_mem hj))
        simp only [List.getElem_cons_succ, List.find?_cons]
        have hbeq : ((rs[j]).id == e.id) = false := by
          simpa using hne
        rw [hbeq]
        exact ih es hmap' hno' j hj hj'

/-- Characterization of a successful master-password change: the global
key is swapped to the newly derived key and the database receives the
batch update of re-encrypted rows and new config. -/
lemma change_master_password_ok (st : ServerState) (k : Key) (salt : Bytes)
    (h : VHash) (cur new : String) (ns : Bytes) (nonces : Nat → Bytes)
    (ents : List (Nat × Bytes))
    (hk : st.crypto.master_key = some k)
    (hc : st.db.store.config = some (salt, h))
    (hv : ph_verify h cur = true)
    (hdec : decrypt_all k st.db.store.passwords = .ok ents) :
    change_master_password cur new ns nonces st =
      ({ crypto := { master_key := some (derive_key new ns) },
         db := batch_update_passwords_and_config
           (re_encrypt (derive_key new ns) nonces 0 ents) ns (ph_hash new)
           st.db }, .ok ()) := by
  simp [change_master_password, hk, hc, hv, hdec, CryptoManager.unlock]

/-! ## Claims -/

/-- C4: AEAD round trip — for every key and byte payload, decrypting the
`(nonce, ciphertextWithTag)` pair produced by `encrypt_bytes` under the
same key returns exactly the payload. -/
theorem aead_round_trip (key : Key) (nonce plaintext : Bytes) :
    decrypt_bytes key (encrypt_bytes key nonce plaintext).1
      (encrypt_bytes key nonce plaintext).2 = some plaintext := by
  simp [encrypt_bytes, decrypt_bytes]

/-- C5: tamper detection / fail-closed decryption — flipping any bit of the
ciphertext body or of the nonce, corrupting the authentication tag, or
decrypting under a key derived from a different password/salt pair, all
make `decrypt_bytes` fail and return no plaintext. -/
theorem aead_tamper_detection (key : Key) (nonce plaintext : Bytes) (i b : Nat) :
    (i < ((encrypt_bytes key nonce plaintext).2).body.length →
      decrypt_bytes key nonce
        { (encrypt_bytes key nonce plaintext).2 with
            body := flip_bit ((encrypt_bytes key nonce plaintext).2).body i b } = none) ∧
    (∀ j, j < nonce.length →
      decrypt_bytes key (flip_bit nonce j b) (encrypt_bytes key nonce plaintext).2 = none) ∧
    (∀ t, t ≠ ((encrypt_bytes key nonce plaintext).2).tagBody →
      decrypt_bytes key nonce
        { (encrypt_bytes key nonce plaintext).2 with tagBody := t } = none) ∧
    (∀ password salt p' s',
      key = derive_key password salt → (p', s') ≠ (password, salt) →
      decrypt_bytes (derive_key p' s') nonce
        (encrypt_bytes key nonce plaintext).2 = none) := by
  refine ⟨?_, ?_, ?_, ?_⟩
  · intro hi
    have hne := flip_bit_ne ((encrypt_bytes key nonce plaintext).2).body i b hi
    simp only [encrypt_bytes] at hne ⊢
    simp [decrypt_bytes]
    intro h
    exact absurd h.symm hne
  · intro j hj
    have hne := flip_bit_ne nonce j b hj
    simp [encrypt_bytes, decrypt_bytes]
    intro h
    exact absurd h.symm hne
  · intro t ht
    simp only [encrypt_bytes] at ht ⊢
    simp [decrypt_bytes, ht]
  · intro p s p' s' hkey hne
    subst hkey
    simp [encrypt_bytes, decrypt_bytes, derive_key, Key.mk.injEq]
    intro h1 h2
    exact absurd (by simp [h1, h2] : (p', s') = (p, s)) hne

/-- Concrete instantiation of the tamper-detection theorem: a body bit
flip, a nonce bit flip, and a wrong derived key each make decryption fail. -/
theorem aead_tamper_detection_witness :
    decrypt_bytes (derive_key "a" [0]) [7]
      { (encrypt_bytes (derive_key "a" [0]) [7] [1, 2]).2 with
          body := flip_bit ((encrypt_bytes (derive_key "a" [0]) [7] [1, 2]).2).body 0 0 } = none ∧
    decrypt_bytes (derive_key "a" [0]) (flip_bit [7] 0 0)
      (encrypt_bytes (derive_key "a" [0]) [7] [1, 2]).2 = none ∧
    decrypt_bytes (derive_key "b" [1]) [7]
      (encrypt_bytes (derive_key "a" [0]) [7] [1, 2]).2 = none :=
  ⟨(aead_tamper_detection (derive_key "a" [0]) [7] [1, 2] 0 0).1 (by decide),
   (aead_tamper_detection (derive_key "a" [0]) [7] [1, 2] 0 0).2.1 0 (by decide),
   (aead_tamper_detection (derive_key "a" [0]) [7] [1, 2] 0 0).2.2.2 "a" [0] "b" [1]
     rfl (by decide)⟩

/-- C6: unlock verifies before deriving — `unlock_vault` checks the
password against the stored verifier hash; on failure it returns
`invalidPassword` with the whole state (in particular an absent
`KeyState`) unchanged, and only on success does it derive the key and
transition to Unlocked. -/
theorem unlock_verifies_before_deriving (st : ServerState) (password : String)
    (salt : Bytes) (h : VHash)
    (hc : st.db.store.config = some (salt, h)) :
    (ph_verify h password = false →
      unlock_vault password st = (st, .error .invalidPassword)) ∧
    (ph_verify h password = false → st.crypto.master_key = none →
      ((unlock_vault password st).1).crypto.master_key = none) ∧
    (ph_verify h password = true →
      unlock_vault password st =
        ({ st with crypto := { master_key := some (derive_key password salt) } },
         .ok ())) := by
  refine ⟨?_, ?_, ?_⟩
  · intro hv
    simp [unlock_vault, hc, hv]
  · intro hv hnone
    simp [unlock_vault, hc, hv, hnone]
  · intro hv
    simp [unlock_vault, hc, hv, CryptoManager.unlock]

/-- Concrete instantiation of the unlock theorem on the example vault:
a wrong password is rejected with the state unchanged, the right password
unlocks with the derived key. -/
theorem unlock_verifies_before_deriving_witness :
    unlock_vault "x" vault0 = (vault0, .error .invalidPassword) ∧
    unlock_vault "a" vault0 =
      ({ vault0 with crypto := { master_key := some (derive_key "a" [0]) } },
       .ok ()) :=
  ⟨(unlock_verifies_before_deriving vault0 "x" [0] (ph_hash "a") rfl).1 (by decide),
   (unlock_verifies_before_deriving vault0 "a" [0] (ph_hash "a") rfl).2.2 (by decide)⟩

/-- C7: listing tolerates per-record decryption failure — in the Unlocked
state `list_passwords` returns exactly the rows that decrypt (with their
plaintexts), excludes each row whose decryption fails instead of failing
the listing, and logs the ids of the skipped rows. -/
theorem list_skips_undecryptable_rows (st : ServerState) (key : Key)
    (hk : st.crypto.master_key = some key) :
    list_passwords st = .ok
      (st.db.store.passwords.filterMap (fun r =>
        (decrypt_bytes key r.nonce r.encrypted_data).map
          (fun pt => ⟨r.id, r.service, r.username, pt⟩)),
       (st.db.store.passwords.filter (fun r =>
          (decrypt_bytes key r.nonce r.encrypted_data).isNone)).map (fun r => r.id)) ∧
    (∀ r ∈ st.db.store.passwords, ∀ pt,
      decrypt_bytes key r.nonce r.encrypted_data = some pt →
        (⟨r.id, r.service, r.username, pt⟩ : PasswordResponse) ∈
          (list_loop key st.db.store.passwords).1) ∧
    (∀ r ∈ st.db.store.passwords,
      decrypt_bytes key r.nonce r.encrypted_data = none →
        r.id ∈ (list_loop key st.db.store.passwords).2) := by
  refine ⟨?_, ?_, ?_⟩
  · simp [list_passwords, hk, list_loop_eq]
  · intro r hr pt hpt
    rw [list_loop_eq]
    simp only [List.mem_filterMap]
    exact ⟨r, hr, by simp [hpt]⟩
  · intro r hr hnone
    rw [list_loop_eq]
    simp only [List.mem_map, List.mem_filter]
    exact ⟨r, ⟨hr, by simp [hnone]⟩, rfl⟩

/-- Concrete instantiation of the listing theorem on the example vault. -/
theorem list_skips_undecryptable_rows_witness :
    list_passwords vault0 = .ok ([⟨1, "email", "u", [104]⟩], []) :=
  (list_skips_undecryptable_rows vault0 key0 rfl).1

/-- C9: locked-state guard — after `lock_vault`, `is_unlocked` is false
and every guarded operation (listing, adding, rotating, attachment upload
and download) fails with the vault-locked error, independently of the
database contents, i.e. without reading or decrypting any stored record. -/
theorem locked_state_guard (st : ServerState) :
    (lock_vault st).crypto.is_unlocked = false ∧
    (∀ db : DBState,
      list_passwords { crypto := (lock_vault st).crypto, db := db } =
        .error .vaultLocked) ∧
    (∀ (db : DBState) service username pw nonce,
      add_password service username pw nonce
          { crypto := (lock_vault st).crypto, db := db } =
        ({ crypto := (lock_vault st).crypto, db := db }, .error .vaultLocked)) ∧
    (∀ (db : DBState) cur new ns nonces,
      change_master_password cur new ns nonces
          { crypto := (lock_vault st).crypto, db := db } =
        ({ crypto := (lock_vault st).crypto, db := db }, .error .vaultLocked)) ∧
    (∀ (db : DBState) entry_id filename content nonce,
      upload_attachment entry_id filename content nonce
          { crypto := (lock_vault st).crypto, db := db } =
        ({ crypto := (lock_vault st).crypto, db := db }, .error .vaultLocked)) ∧
    (∀ (db : DBState) attachment_id,
      download_attachment attachment_id
          { crypto := (lock_vault st).crypto, db := db } =
        .error .vaultLocked) :=
  ⟨rfl, fun _ => rfl, fun _ _ _ _ _ => rfl, fun _ _ _ _ _ => rfl,
   fun _ _ _ _ _ => rfl, fun _ _ => rfl⟩

/-- C10: init is rejected on an initialized vault, atomically — when a
master config exists, `initialize_vault` fails with the
already-initialized error and changes nothing; when none exists it stores
the new salt and verifier hash, touches no other table, and leaves the
vault Unlocked with the derived key. -/
theorem init_rejected_on_initialized_vault (st : ServerState) (password : String)
    (fresh_salt : Bytes) :
    (∀ cfg, st.db.store.config = some cfg →
      initialize_vault password fresh_salt st = (st, .error .alreadyInitialized)) ∧
    (st.db.store.config = none →
      initialize_vault password fresh_salt st =
        ({ crypto := { master_key := some (derive_key password fresh_salt) },
           db := set_master_config fresh_salt (ph_hash password) st.db }, .ok ())) ∧
    (st.db.store.config = none →
      ((initialize_vault password fresh_salt st).1).db.store.passwords =
          st.db.store.passwords ∧
      ((initialize_vault password fresh_salt st).1).db.store.attachments =
          st.db.store.attachments ∧
      ((initialize_vault password fresh_salt st).1).crypto.is_unlocked = true) := by
  refine ⟨?_, ?_, ?_⟩
  · intro cfg hcfg
    simp [initialize_vault, hcfg]
  · intro hcfg
    simp [initialize_vault, hcfg, CryptoManager.unlock]
  · intro hcfg
    simp [initialize_vault, hcfg, CryptoManager.unlock, set_master_config,
      CryptoManager.is_unlocked]

/-- Concrete instantiation of the init theorem: rejected on the
initialized example vault, successful on the empty one. -/
theorem init_rejected_on_initialized_vault_witness :
    initialize_vault "b" [5] vault0 = (vault0, .error .alreadyInitialized) ∧
    initialize_vault "b" [5] vaultEmpty =
      ({ crypto := { master_key := some (derive_key "b" [5]) },
         db := set_master_config [5] (ph_hash "b") vaultEmpty.db }, .ok ()) :=
  ⟨(init_rejected_on_initialized_vault vault0 "b" [5]).1 ([0], ph_hash "a") rfl,
   (init_rejected_on_initialized_vault vaultEmpty "b" [5]).2.1 rfl⟩

/-- C1: rotation atomicity — if any stored row fails to decrypt under the
live key, `change_master_password` aborts with the rotation-aborted error
and returns the state completely unchanged (rows, attachments, config,
snapshots and the live key), and the old password still unlocks. -/
theorem rotation_aborts_atomically_on_decrypt_failure (st : ServerState) (k : Key)
    (salt : Bytes) (h : VHash) (cur new : String) (ns : Bytes)
    (nonces : Nat → Bytes)
    (hk : st.crypto.master_key = some k)
    (hc : st.db.store.config = some (salt, h))
    (hv : ph_verify h cur = true)
    (hfail : ∃ r ∈ st.db.store.passwords,
      decrypt_bytes k r.nonce r.encrypted_data = none) :
    (∃ i, change_master_password cur new ns nonces st =
      (st, .error (.rotationAborted i))) ∧
    (change_master_password cur new ns nonces st).1 = st ∧
    (change_master_password cur new ns nonces st).1.crypto.master_key = some k ∧
    (unlock_vault cur st).2 = .ok () ∧
    (unlock_vault cur st).1.crypto.master_key = some (derive_key cur salt) := by
  obtain ⟨i, hi⟩ := decrypt_all_error_of_failure k st.db.store.passwords hfail
  have hrot : change_master_password cur new ns nonces st =
      (st, .error (.rotationAborted i)) := by
    simp [change_master_password, hk, hc, hv, hi]
  refine ⟨⟨i, hrot⟩, by rw [hrot], by rw [hrot]; exact hk, ?_, ?_⟩
  · simp [unlock_vault, hc, hv]
  · simp [unlock_vault, hc, hv, CryptoManager.unlock]

/-- Concrete instantiation of the rotation-atomicity theorem on a vault
with one corrupted row. -/
theorem rotation_aborts_atomically_on_decrypt_failure_witness :
    (∃ i, change_master_password "a" "b" [3] (fun n => [4 + n]) vaultBad =
      (vaultBad, .error (.rotationAborted i))) ∧
    (change_master_password "a" "b" [3] (fun n => [4 + n]) vaultBad).1 = vaultBad ∧
    (change_master_password "a" "b" [3] (fun n => [4 + n]) vaultBad).1.crypto.master_key =
      some key0 ∧
    (unlock_vault "a" vaultBad).2 = .ok () ∧
    (unlock_vault "a" vaultBad).1.crypto.master_key = some (derive_key "a" [0]) :=
  rotation_aborts_atomically_on_decrypt_failure vaultBad key0 [0] (ph_hash "a")
    "a" "b" [3] (fun n => [4 + n]) rfl rfl (by decide)
    ⟨⟨1, "s", "u", ⟨[1], key0, [9], [2]⟩, [1]⟩, by decide, by decide⟩
/-- C2: rotation completeness — after a successful `change_master_password`,
every stored row decrypts under the key derived from the new password and
new salt to exactly the plaintext it held before (same id, same position),
the old password no longer unlocks, and the new password unlocks with the
new key, which is also the live key. -/
theorem rotation_completeness (st : ServerState) (k : Key) (salt : Bytes)
    (h : VHash) (cur new : String) (ns : Bytes) (nonces : Nat → Bytes)
    (ents : List (Nat × Bytes))
    (hk : st.crypto.master_key = some k)
    (hc : st.db.store.config = some (salt, h))
    (hv : ph_verify h cur = true)
    (hdec : decrypt_all k st.db.store.passwords = .ok ents)
    (hno : (st.db.store.passwords.map (fun r => r.id)).Nodup)
    (hne : cur ≠ new) :
    (change_master_password cur new ns nonces st).2 = .ok () ∧
    (change_master_password cur new ns nonces st).1.crypto.master_key =
      some (derive_key new ns) ∧
    (change_master_password cur new ns nonces st).1.db.store.passwords.length =
      st.db.store.passwords.length ∧
    (∀ i (hi : i < st.db.store.passwords.length)
        (hi' : i < (change_master_password cur new ns nonces st).1.db.store.passwords.length),
      ((change_master_password cur new ns nonces st).1.db.store.passwords[i]).id =
        (st.db.store.passwords[i]).id ∧
      (decrypt_bytes k (st.db.store.passwords[i]).nonce
        (st.db.store.passwords[i]).encrypted_data).isSome = true ∧
      decrypt_bytes (derive_key new ns)
          (((change_master_password cur new ns nonces st).1.db.store.passwords[i])).nonce
          (((change_master_password cur new ns nonces st).1.db.store.passwords[i])).encrypted_data =
        decrypt_bytes k (st.db.store.passwords[i]).nonce
          (st.db.store.passwords[i]).encrypted_data) ∧
    unlock_vault cur (change_master_password cur new ns nonces st).1 =
      ((change_master_password cur new ns nonces st).1, .error .invalidPassword) ∧
    (unlock_vault new (change_master_password cur new ns nonces st).1).2 = .ok () ∧
    (unlock_vault new (change_master_password cur new ns nonces st).1).1.crypto.master_key =
      some (derive_key new ns) := by
  have hok := change_master_password_ok st k salt h cur new ns nonces ents hk hc hv hdec
  have hmapids : (re_encrypt (derive_key new ns) nonces 0 ents).map (fun e => e.id)
      = st.db.store.passwords.map (fun r => r.id) := by
    rw [re_encrypt_map_id]
    exact decrypt_all_ok_map_fst k _ ents hdec
  have hnoents : ((re_encrypt (derive_key new ns) nonces 0 ents).map
      (fun e => e.id)).Nodup := by
    rw [hmapids]; exact hno
  have hps : (batch_update_passwords_and_config
      (re_encrypt (derive_key new ns) nonces 0 ents) ns (ph_hash new)
      st.db).store.passwords =
      st.db.store.passwords.map (fun r =>
        match (re_encrypt (derive_key new ns) nonces 0 ents).find?
            (fun e => r.id == e.id) with
        | some e => { r with encrypted_data := e.encrypted_data, nonce := e.nonce }
        | none => r) := by
    simp only [batch_update_passwords_and_config, create_snapshot]
    exact foldl_apply_update_eq_map _ _ hnoents
  have hcfg : (batch_update_passwords_and_config
      (re_encrypt (derive_key new ns) nonces 0 ents) ns (ph_hash new)
      st.db).store.config = some (ns, ph_hash new) := by
    simp [batch_update_passwords_and_config, create_snapshot]
  have hlenents : ents.length = st.db.store.passwords.length :=
    decrypt_all_ok_length k _ ents hdec
  refine ⟨by rw [hok], by rw [hok], ?_, ?_, ?_, ?_, ?_⟩
  · rw [hok]
    simp [hps]
  · intro i hi hi'
    simp only [hok, hps, List.getElem_map] at hi' ⊢
    have hie : i < ents.length := by omega
    have hire : i < (re_encrypt (derive_key new ns) nonces 0 ents).length := by
      rw [re_encrypt_length]; exact hie
    have hfind := find_entry_at (re_encrypt (derive_key new ns) nonces 0 ents)
      st.db.store.passwords hmapids hno i hi hire
    have hre := re_encrypt_get (derive_key new ns) nonces 0 ents i hie hire
    have hda := decrypt_all_ok_get k st.db.store.passwords ents hdec i hi hie
    rw [hfind, hre]
    simp only [Nat.zero_add]
    refine ⟨by trivial, ?_, ?_⟩
    · rw [hda.2]; rfl
    · rw [hda.2]
      simp [encrypt_bytes, decrypt_bytes]
  · rw [hok]
    simp only [unlock_vault, hcfg]
    have : ph_verify (ph_hash new) cur = false := by
      simp [ph_verify, ph_hash]
      intro hcontra
      exact hne hcontra.symm
    rw [this]
    simp
  · rw [hok]
    simp only [unlock_vault, hcfg]
    have : ph_verify (ph_hash new) new = true := by
      simp [ph_verify, ph_hash]
    rw [this]
    simp
  · rw [hok]
    simp only [unlock_vault, hcfg]
    have : ph_verify (ph_hash new) new = true := by
      simp [ph_verify, ph_hash]
    rw [this]
    simp [CryptoManager.unlock]

/-- Concrete instantiation of the rotation-completeness theorem on the
example vault. -/
theorem rotation_completeness_witness :
    (change_master_password "a" "b" [3] (fun n => [4 + n]) vault0).2 = .ok () ∧
    (change_master_password "a" "b" [3] (fun n => [4 + n]) vault0).1.crypto.master_key =
      some (derive_key "b" [3]) ∧
    unlock_vault "a" (change_master_password "a" "b" [3] (fun n => [4 + n]) vault0).1 =
      ((change_master_password "a" "b" [3] (fun n => [4 + n]) vault0).1,
       .error .invalidPassword) ∧
    (unlock_vault "b" (change_master_password "a" "b" [3] (fun n => [4 + n]) vault0).1).2 =
      .ok () :=
  have h := rotation_completeness vault0 key0 [0] (ph_hash "a") "a" "b" [3]
    (fun n => [4 + n]) [(1, [104])] rfl rfl (by decide) (by decide) (by decide)
    (by decide)
  ⟨h.1, h.2.1, h.2.2.2.2.1, h.2.2.2.2.2.1⟩

/-- C3 (observed code behavior): on the example vault a rotation succeeds
and re-keys the password rows, but the attachment table is untouched — the
stored attachment still carries the old key epoch, fails to decrypt under
the new live key, and `download_attachment` now errors where it succeeded
before the rotation.  This exhibits the violation of the attachment
key-epoch invariant claimed by the spec. -/
theorem attachments_stale_after_rotation :
    (change_master_password "a" "b" [3] (fun n => [4 + n]) vault0).2 = .ok () ∧
    (change_master_password "a" "b" [3] (fun n => [4 + n]) vault0).1.crypto.master_key =
      some (derive_key "b" [3]) ∧
    list_passwords (change_master_password "a" "b" [3] (fun n => [4 + n]) vault0).1 =
      .ok ([⟨1, "email", "u", [104]⟩], []) ∧
    (change_master_password "a" "b" [3] (fun n => [4 + n]) vault0).1.db.store.attachments =
      vault0.db.store.attachments ∧
    decrypt_bytes (derive_key "b" [3]) [2] (encrypt_bytes key0 [2] [9]).2 = none ∧
    download_attachment 1
      (change_master_password "a" "b" [3] (fun n => [4 + n]) vault0).1 =
      .error .decryptionFailed ∧
    download_attachment 1 vault0 = .ok [9] :=
  ⟨rfl, rfl, rfl, rfl, rfl, rfl, rfl⟩

/-- C8 (observed code behavior): `add_password` stores the new row under
the real AUTOINCREMENT id (here 2) but responds with the hard-coded
placeholder id 0, which is not the id of any stored row. -/
theorem add_password_returns_placeholder_id :
    (add_password "svc" "u2" [5] [9] vault0).2 = .ok ⟨0, "svc", "u2", [5]⟩ ∧
    (add_password "svc" "u2" [5] [9] vault0).1.db.store.passwords.map
      (fun r => r.id) = [1, 2] ∧
    ¬ (0 ∈ (add_password "svc" "u2" [5] [9] vault0).1.db.store.passwords.map
      (fun r => r.id)) :=
  ⟨rfl, rfl, by decide⟩
